import Mathlib

/-!
# kmgm: key usage catalog and issuance-server authentication

A shallow embedding of `keyusage/keyusage.go` and of the request
classification and authentication code of `cli/serve/serve.go`, with the
properties the specification states about them.

Conventions of the embedding:

* Go `int` values (`x509.KeyUsage`, `x509.ExtKeyUsage`, `ProtoMajor`) are `Int`;
  `uint32` values are `Nat` reduced `% 2^32` at every conversion.
* Go slices are `List`s (a nil slice and an empty slice are both `[]`).
* YAML strings are `String`; header values and the bootstrap secret, which the
  code slices by byte offset, are lists of bytes.
* A Go method that assigns through its pointer receiver and returns `error`
  becomes a function returning the receiver's final value and `Option Error`.
-/

set_option linter.dupNamespace false

namespace keyusage

/-! ## Constants of `crypto/x509` used by the package -/

/-- Bit `x509.KeyUsageDigitalSignature` (`1 << 0`). -/
def KeyUsageDigitalSignature : Int := 1
/-- Bit `x509.KeyUsageKeyEncipherment` (`1 << 2`). -/
def KeyUsageKeyEncipherment : Int := 4
/-- Bit `x509.KeyUsageCertSign` (`1 << 5`). -/
def KeyUsageCertSign : Int := 32
/-- Bit `x509.KeyUsageCRLSign` (`1 << 6`). -/
def KeyUsageCRLSign : Int := 64
/-- Value `x509.ExtKeyUsageAny`. -/
def ExtKeyUsageAny : Int := 0
/-- Value `x509.ExtKeyUsageServerAuth`. -/
def ExtKeyUsageServerAuth : Int := 1
/-- Value `x509.ExtKeyUsageClientAuth`. -/
def ExtKeyUsageClientAuth : Int := 2

/-! ## Data model -/

/-- Go `type KeyUsage struct`: a key-usage mask and a list of extended usages. -/
structure KeyUsage where
  KeyUsage : Int
  ExtKeyUsages : List Int
deriving DecidableEq, Repr

/-- The Go zero value `KeyUsage{}`. -/
def KeyUsage.zero : keyusage.KeyUsage := ⟨0, []⟩

/-- Go `var KeyUsageCA`. -/
def KeyUsageCA : KeyUsage :=
  { KeyUsage := Int.lor KeyUsageCertSign KeyUsageCRLSign
    ExtKeyUsages := [] }

/-- Go `var KeyUsageTLSServer`. -/
def KeyUsageTLSServer : KeyUsage :=
  { KeyUsage := Int.lor KeyUsageKeyEncipherment KeyUsageDigitalSignature
    ExtKeyUsages := [ExtKeyUsageServerAuth] }

/-- Go `var KeyUsageTLSClient`. -/
def KeyUsageTLSClient : KeyUsage :=
  { KeyUsage := Int.lor KeyUsageKeyEncipherment KeyUsageDigitalSignature
    ExtKeyUsages := [ExtKeyUsageClientAuth] }

/-- Go `var KeyUsageTLSClientServer`. -/
def KeyUsageTLSClientServer : KeyUsage :=
  { KeyUsage := Int.lor KeyUsageKeyEncipherment KeyUsageDigitalSignature
    ExtKeyUsages := [ExtKeyUsageClientAuth, ExtKeyUsageServerAuth] }

/-- Go `func (u KeyUsage) Clone()`: the mask and a fresh copy of the list. -/
def KeyUsage.Clone (u : keyusage.KeyUsage) : keyusage.KeyUsage :=
  { KeyUsage := u.KeyUsage
    ExtKeyUsages := [] ++ u.ExtKeyUsages }

/-- Go `type yamlKeyUsage struct`: the decoded YAML mapping. -/
structure yamlKeyUsage where
  KeyUsage : List String
  ExtKeyUsage : List String
  Preset : String
deriving DecidableEq, Repr

/-! ## Errors and their messages -/

/-- The errors the package builds, one constructor per `errors.New` or
`fmt.Errorf` call site, carrying the formatted argument; `decode` is an error
handed back by the YAML decoder callback. -/
inductive Error where
  | decode (msg : String)
  | presetAndKeyUsage
  | presetAndExtKeyUsage
  | unknownPreset (s : String)
  | unknownKeyUsage (ku : String)
  | anyAndOthers
deriving DecidableEq, Repr

/-- The double quote character. -/
def dq : Char := Char.ofNat 34

/-- The backslash character. -/
def bs : Char := Char.ofNat 92

/-- Digit `n % 16` of `strconv`'s `lowerhex` table. -/
def lowerhex (n : Nat) : Char :=
  "0123456789abcdef".data.getD (n % 16) '0'

/-- The `k` lowest hexadecimal digits of `r`, most significant first. -/
def hexDigits (r : Nat) : Nat → List Char
  | 0 => []
  | k + 1 => lowerhex (r / 16 ^ k) :: hexDigits r k

/-- Go `strconv.appendEscapedRune` as called by `strconv.Quote` (quote `"`,
not ASCII-only, not graphic-only), on a valid rune. The Unicode table behind
`unicode.IsPrint` is the parameter `isPrint`. The rune U+007F is written `\x7f`
as in current Go releases (older ones wrote `\u007f`). -/
def appendEscapedRune (isPrint : Char → Bool) (r : Char) : List Char :=
  if r = dq ∨ r = bs then [bs, r]
  else if isPrint r then [r]
  else if r = Char.ofNat 7 then [bs, 'a']
  else if r = Char.ofNat 8 then [bs, 'b']
  else if r = Char.ofNat 12 then [bs, 'f']
  else if r = Char.ofNat 10 then [bs, 'n']
  else if r = Char.ofNat 13 then [bs, 'r']
  else if r = Char.ofNat 9 then [bs, 't']
  else if r = Char.ofNat 11 then [bs, 'v']
  else if r.toNat < 32 ∨ r.toNat = 127 then [bs, 'x'] ++ hexDigits r.toNat 2
  else if r.toNat < 65536 then [bs, 'u'] ++ hexDigits r.toNat 4
  else [bs, 'U'] ++ hexDigits r.toNat 8

/-- Go `strconv.Quote`, the rendering of the `%q` verb, on a string of valid
runes: the escaped runes between two double quotes. -/
def Quote (isPrint : Char → Bool) (s : String) : String :=
  ⟨dq :: (s.data.flatMap (appendEscapedRune isPrint) ++ [dq])⟩

/-- The message of an error (Go `err.Error()`). -/
def Error.Error (isPrint : Char → Bool) : Error → String
  | .decode msg => msg
  | .presetAndKeyUsage => "preset and keyUsage is not allowed to be specified at once."
  | .presetAndExtKeyUsage => "preset and extKeyUsage is not allowed to be specified at once."
  | .unknownPreset s => "Unknown preset " ++ Quote isPrint s ++ " specified"
  | .unknownKeyUsage ku => "Unknown keyUsage " ++ Quote isPrint ku
  | .anyAndOthers =>
      "extKeyUsage " ++ ⟨[dq]⟩ ++ "any" ++ ⟨[dq]⟩ ++
        " and other extKeyUsages cannot be specified at once."

/-! ## Parsing -/

/-- Go `func PresetFromString(s string) (KeyUsage, error)`. -/
def PresetFromString (s : String) : KeyUsage × Option Error :=
  if s = "tlsServer" then (KeyUsageTLSServer.Clone, none)
  else if s = "tlsClient" then (KeyUsageTLSClient.Clone, none)
  else if s = "tlsClientServer" then (KeyUsageTLSClientServer.Clone, none)
  else (KeyUsage.zero, some (.unknownPreset s))

/-- The first loop of `UnmarshalYAML`, `for _, ku := range yku.KeyUsage`, from
the current value of `u.KeyUsage`: the mask reached, and the error of the
early return if an entry is not recognised. -/
def keyUsageLoop (mask : Int) : List String → Int × Option Error
  | [] => (mask, none)
  | ku :: rest =>
    if ku = "keyEncipherment" then
      keyUsageLoop (Int.lor mask KeyUsageKeyEncipherment) rest
    else if ku = "digitalSignature" then
      keyUsageLoop (Int.lor mask KeyUsageDigitalSignature) rest
    else
      (mask, some (.unknownKeyUsage ku))

/-- The second loop of `UnmarshalYAML`, `for _, eku := range yku.ExtKeyUsage`,
from the current values of `foundAny` and `u.ExtKeyUsages`. An entry that is
none of the three names falls through the `if` chain and changes nothing. -/
def extKeyUsageLoop (foundAny : Bool) (ekus : List Int) : List String → Bool × List Int
  | [] => (foundAny, ekus)
  | eku :: rest =>
    if eku = "any" then
      extKeyUsageLoop true (ekus ++ [ExtKeyUsageAny]) rest
    else if eku = "clientAuth" then
      extKeyUsageLoop foundAny (ekus ++ [ExtKeyUsageClientAuth]) rest
    else if eku = "serverAuth" then
      extKeyUsageLoop foundAny (ekus ++ [ExtKeyUsageServerAuth]) rest
    else
      extKeyUsageLoop foundAny ekus rest

/-- Go `func (u *KeyUsage) UnmarshalYAML(unmarshal func(interface{}) error) error`.
`u` is the receiver's value on entry and `unmarshal` the outcome of the decoder
callback on `&yku`; the result is the receiver's value on return and the
returned error. -/
def UnmarshalYAML (u : KeyUsage) (unmarshal : Except Error yamlKeyUsage) :
    KeyUsage × Option Error :=
  match unmarshal with
  | .error err => (u, some err)
  | .ok yku =>
    if yku.Preset ≠ "" then
      if yku.KeyUsage.length ≠ 0 then (u, some .presetAndKeyUsage)
      else if yku.ExtKeyUsage.length ≠ 0 then (u, some .presetAndExtKeyUsage)
      else PresetFromString yku.Preset
    else
      match keyUsageLoop 0 yku.KeyUsage with
      | (mask, some err) => ({ u with KeyUsage := mask }, some err)
      | (mask, none) =>
        let r := extKeyUsageLoop false [] yku.ExtKeyUsage
        if r.1 = true ∧ r.2.length > 1 then
          ({ KeyUsage := mask, ExtKeyUsages := r.2 }, some .anyAndOthers)
        else
          ({ KeyUsage := mask, ExtKeyUsages := r.2 }, none)

/-! ## Recognised names -/

/-- A name the first loop recognises. -/
def knownKeyUsage (ku : String) : Prop :=
  ku = "keyEncipherment" ∨ ku = "digitalSignature"

/-- A name the second loop recognises. -/
def knownExtKeyUsage (eku : String) : Prop :=
  eku = "any" ∨ eku = "clientAuth" ∨ eku = "serverAuth"

/-- The value the second loop appends for a name. -/
def extKeyUsageValue (eku : String) : Int :=
  if eku = "any" then ExtKeyUsageAny
  else if eku = "clientAuth" then ExtKeyUsageClientAuth
  else ExtKeyUsageServerAuth

/-! ## Protocol-buffer encoding -/

/-- Go `uint32(x)` on a Go `int`: the value modulo `2^32`. -/
def uint32 (x : Int) : Nat := (x % 4294967296).toNat

/-- The generated message `pb.KeyUsage`, with the two fields the package reads
and writes: `KeyUsage uint32` and `ExtKeyUsages []uint32`. -/
structure pbKeyUsage where
  KeyUsage : Nat
  ExtKeyUsages : List Nat
deriving DecidableEq, Repr

/-- The loop of `FromProtoStruct`: append `x509.ExtKeyUsage(ekuint)` for each
entry. -/
def fromProtoLoop (ekus : List Int) : List Nat → List Int
  | [] => ekus
  | ekuint :: rest => fromProtoLoop (ekus ++ [(ekuint : Int)]) rest

/-- Go `func FromProtoStruct(s *pb.KeyUsage) KeyUsage`; `none` is the nil
pointer. -/
def FromProtoStruct : Option pbKeyUsage → KeyUsage
  | none => KeyUsage.zero
  | some s =>
    { KeyUsage := (s.KeyUsage : Int)
      ExtKeyUsages := fromProtoLoop [] s.ExtKeyUsages }

/-- The loop of `ToProtoStruct`: append `uint32(eku)` for each entry. -/
def toProtoLoop (ekuints : List Nat) : List Int → List Nat
  | [] => ekuints
  | eku :: rest => toProtoLoop (ekuints ++ [uint32 eku]) rest

/-- Go `func (u KeyUsage) ToProtoStruct() *pb.KeyUsage`; the result is never
nil. -/
def KeyUsage.ToProtoStruct (u : keyusage.KeyUsage) : Option pbKeyUsage :=
  some
    { KeyUsage := uint32 u.KeyUsage
      ExtKeyUsages := toProtoLoop [] u.ExtKeyUsages }

end keyusage

namespace serve

/-! ## Strings of bytes -/

/-- A Go `byte`. -/
abbrev Byte := Fin 256

/-- A Go `string` seen as its bytes. -/
abbrev Bytes := List Byte

/-- The bytes of an ASCII string literal. -/
def ofASCII (s : String) : Bytes := s.data.map (fun c => Fin.ofNat c.toNat)

/-- Go `strings.HasPrefix(s, pre)`:
`len(s) >= len(pre) && s[0:len(pre)] == pre`. -/
def HasPrefix (s pre : Bytes) : Bool :=
  decide (s.length ≥ pre.length) && decide (s.take pre.length = pre)

/-- Go `strings.EqualFold(s, t)` for a second argument `t` of ASCII bytes none
of which is the letter k or s (in either case), as at its only call site here,
where `t` is `BearerPrefix`. The body is the function's byte loop: equal bytes
match, and so do an upper-case ASCII letter and its lower-case form. On a byte
of `s` with the top bit set (`sr|tr >= utf8.RuneSelf`) the Go function goes on
rune by rune under `unicode.SimpleFold`; no rune outside ASCII folds to an
ASCII character other than k and s, so that comparison fails against `t`. -/
def EqualFold : Bytes → Bytes → Bool
  | [], [] => true
  | sr :: s, tr :: t =>
    if sr.val ≥ 128 ∨ tr.val ≥ 128 then false
    else if tr = sr then EqualFold s t
    else
      let lo := if tr.val < sr.val then tr else sr
      let hi := if tr.val < sr.val then sr else tr
      if 65 ≤ lo.val ∧ lo.val ≤ 90 ∧ hi.val = lo.val + (97 - 65) then EqualFold s t
      else false
  | _, _ => false

/-! ## Protocol multiplexer -/

/-- The fields of `http.Request` the multiplexer reads. `Header` maps a
canonical header name to its list of values (no entry: the empty list). -/
structure Request where
  ProtoMajor : Int
  Header : String → List Bytes

/-- Go `Header.Get(key)` for a key already in canonical form: the first value
under the key, or the empty string. -/
def Request.HeaderGet (r : Request) (key : String) : Bytes :=
  (r.Header key).headD []

/-- Which of the two handlers a request is handed to. -/
inductive Served where
  | grpcServer (r : Request)
  | httpHandler (r : Request)

/-- The handler returned by Go `grpcHttpMux(grpcServer, httpHandler)`, applied
to a request: the `ServeHTTP` call it makes. -/
def grpcHttpMux (r : Request) : Served :=
  if r.ProtoMajor = 2 ∧ HasPrefix (r.HeaderGet "Content-Type") (ofASCII "application/grpc") = true then
    .grpcServer r
  else
    .httpHandler r

/-! ## Authentication -/

/-- Go `const BearerPrefix = "bearer "`. -/
def BearerPrefix : Bytes := ofASCII "bearer "

/-- The part of `x509.Certificate` the code reads, `Subject.CommonName`, next
to the encoded certificate. -/
structure Certificate where
  SubjectCommonName : String
  Raw : Bytes
deriving DecidableEq, Repr

/-- Modelled from the spec: the `remote/user` package, whose values
`user.Anonymous`, `user.BootstrapToken` and `user.ClientCert(cn)` the spec
describes as the tagged variant `Anonymous`, `BootstrapToken`,
`ClientCert{subjectCommonName}`. -/
inductive User where
  | Anonymous
  | BootstrapToken
  | ClientCert (commonName : String)
deriving DecidableEq, Repr

/-- Modelled from the spec: the test `u.Type == pb.AuthenticationType_ANONYMOUS`
on the tag of the variant. -/
def User.isAnonymous : User → Bool
  | .Anonymous => true
  | _ => false

/-- The gRPC status codes the function uses. -/
inductive Code where
  | Unauthenticated
deriving DecidableEq, Repr

/-- The error built by `grpc.Errorf(code, format, args...)`. -/
structure Status where
  code : Code
  message : String
deriving DecidableEq, Repr

/-- Go `peer.Peer.AuthInfo`: TLS connection state with its peer certificates,
or some other kind of credentials. -/
inductive AuthInfo where
  | TLSInfo (PeerCertificates : List Certificate)
  | other
deriving DecidableEq, Repr

/-- What the auth function reads of its `context.Context`: the peer, if any
(`peer.FromContext`), and the values of the incoming metadata key
`authorization`. -/
structure Context where
  peer : Option AuthInfo
  authorization : List Bytes
deriving DecidableEq, Repr

/-- Go `metautils.ExtractIncoming(ctx).Get("authorization")`: the first value
of the key, or the empty string. -/
def Context.authHeader (ctx : Context) : Bytes :=
  ctx.authorization.headD []

/-- The closure `authfunc` of `generateAuthFunc`. `Verify roots keyUsages pc`
stands for `pc.Verify(x509.VerifyOptions{Roots, KeyUsages})`: `none` when a
chain is found, otherwise the text of the error. The result is the user put in
the returned context, or the returned error. -/
def authfunc (Verify : List Certificate → List Int → Certificate → Option String)
    (cacert : Certificate) (bootstrap : Bytes) (ctx : Context) : Except Status User :=
  let certStep : Except Status User :=
    match ctx.peer with
    | some (.TLSInfo (pc :: _)) =>
      match Verify [cacert] [keyusage.ExtKeyUsageClientAuth] pc with
      | some err => .error ⟨.Unauthenticated, "Failed to verify client cert: " ++ err⟩
      | none => .ok (.ClientCert pc.SubjectCommonName)
    | _ => .ok .Anonymous
  match certStep with
  | .error e => .error e
  | .ok u =>
    if u.isAnonymous = true then
      let authHeader := ctx.authHeader
      if authHeader ≠ [] then
        if authHeader.length < BearerPrefix.length ∨
            EqualFold (authHeader.take BearerPrefix.length) BearerPrefix = false then
          .error ⟨.Unauthenticated, "Bad scheme"⟩
        else
          let token := authHeader.drop BearerPrefix.length
          if bootstrap = [] ∨ token ≠ bootstrap then
            .error ⟨.Unauthenticated, "Bad token"⟩
          else
            .ok .BootstrapToken
      else .ok u
    else .ok u

/-- Go `generateAuthFunc(authp, bootstrap)`: `ReadCACertificate` is the outcome
of `authp.ReadCACertificate()`; its error is returned, otherwise the closure
over the certificate and the bootstrap secret. -/
def generateAuthFunc (Verify : List Certificate → List Int → Certificate → Option String)
    (ReadCACertificate : Except String Certificate) (bootstrap : Bytes) :
    Except String (Context → Except Status User) :=
  match ReadCACertificate with
  | .error err => .error err
  | .ok cacert => .ok (authfunc Verify cacert bootstrap)

/-- Build the auth function with `generateAuthFunc` and call it on one
context: the error of the build, or the outcome of the call. -/
def callAuthFunc (Verify : List Certificate → List Int → Certificate → Option String)
    (ReadCACertificate : Except String Certificate) (bootstrap : Bytes) (ctx : Context) :
    Except String (Except Status User) :=
  match generateAuthFunc Verify ReadCACertificate bootstrap with
  | .error err => .error err
  | .ok f => .ok (f ctx)

/-- The request presents no peer certificate: there is no peer, its
credentials are not TLS, or the TLS state lists no certificate. -/
def Context.noPeerCertificate (ctx : Context) : Prop :=
  ctx.peer = none ∨ ctx.peer = some .other ∨ ctx.peer = some (.TLSInfo [])

/-- A sample verifier: it accepts the certificates whose encoding is `good`. -/
def sampleVerify : List Certificate → List Int → Certificate → Option String :=
  fun _ _ pc =>
    if pc.Raw = ofASCII "good" then none
    else some "x509: certificate signed by unknown authority"

/-- A sample CA certificate. -/
def sampleCA : Certificate := ⟨"kmgm auth", ofASCII "ca"⟩

/-- A sample client certificate that `sampleVerify` accepts. -/
def sampleGoodCert : Certificate := ⟨"alice", ofASCII "good"⟩

/-- A sample client certificate that `sampleVerify` rejects. -/
def sampleBadCert : Certificate := ⟨"mallory", ofASCII "forged"⟩

/-- Spec-side reading of "ignoring letter case": the lower-case form of an
ASCII letter, every other byte unchanged. -/
def asciiLower (b : Byte) : Byte :=
  if 65 ≤ b.val ∧ b.val ≤ 90 then Fin.ofNat (b.val + 32) else b

/-- Spec-side reading of "equal ignoring letter case": the two byte strings
have the same lower-case form. -/
def EqualIgnoringCase (s t : Bytes) : Prop :=
  s.map asciiLower = t.map asciiLower

end serve

/-! # Properties of the key usage catalog -/

namespace keyusage

/-! ## The two loops of `UnmarshalYAML` -/

theorem keyUsageLoop_known (l : List String) (h : ∀ ku ∈ l, knownKeyUsage ku) (mask : Int) :
    (keyUsageLoop mask l).2 = none := by
  induction l generalizing mask with
  | nil => rfl
  | cons ku rest ih =>
    have hrest : ∀ k ∈ rest, knownKeyUsage k := fun k hk => h k (List.mem_cons_of_mem _ hk)
    rcases h ku (List.mem_cons_self _ _) with hku | hku
    · simp only [keyUsageLoop, hku, if_true]
      exact ih hrest _
    · have hne : ¬ ku = "keyEncipherment" := by rw [hku]; decide
      simp only [keyUsageLoop, hne, if_false, hku, if_true]
      exact ih hrest _

theorem keyUsageLoop_unknown (l : List String) (h : ∃ ku ∈ l, ¬ knownKeyUsage ku) (mask : Int) :
    ∃ pre tok post, l = pre ++ tok :: post ∧ (∀ k ∈ pre, knownKeyUsage k) ∧
      ¬ knownKeyUsage tok ∧ (keyUsageLoop mask l).2 = some (.unknownKeyUsage tok) := by
  induction l generalizing mask with
  | nil => obtain ⟨ku, hku, _⟩ := h; cases hku
  | cons ku rest ih =>
    by_cases hk : knownKeyUsage ku
    · have hrest : ∃ k ∈ rest, ¬ knownKeyUsage k := by
        obtain ⟨k, hkm, hkn⟩ := h
        rcases List.mem_cons.mp hkm with rfl | hkm
        · exact absurd hk hkn
        · exact ⟨k, hkm, hkn⟩
      have hpre : ∀ pre : List String, (∀ k ∈ pre, knownKeyUsage k) →
          ∀ k ∈ ku :: pre, knownKeyUsage k := by
        intro pre hall k hmem
        rcases List.mem_cons.mp hmem with rfl | hmem
        · exact hk
        · exact hall k hmem
      rcases hk with hku | hku
      · obtain ⟨pre, tok, post, hl, hall, htn, hres⟩ :=
          ih hrest (Int.lor mask KeyUsageKeyEncipherment)
        refine ⟨ku :: pre, tok, post, by rw [hl]; rfl, hpre pre hall, htn, ?_⟩
        simp only [keyUsageLoop, hku, if_true]
        exact hres
      · obtain ⟨pre, tok, post, hl, hall, htn, hres⟩ :=
          ih hrest (Int.lor mask KeyUsageDigitalSignature)
        refine ⟨ku :: pre, tok, post, by rw [hl]; rfl, hpre pre hall, htn, ?_⟩
        have hne : ¬ ku = "keyEncipherment" := by rw [hku]; decide
        simp only [keyUsageLoop, hne, if_false, hku, if_true]
        exact hres
    · refine ⟨[], ku, rest, rfl, ⟨fun k hmem => absurd hmem (List.not_mem_nil k), hk, ?_⟩⟩
      have h1 : ¬ ku = "keyEncipherment" := fun e => hk (Or.inl e)
      have h2 : ¬ ku = "digitalSignature" := fun e => hk (Or.inr e)
      simp only [keyUsageLoop, h1, h2, if_false]

theorem extKeyUsageLoop_known (l : List String) (h : ∀ eku ∈ l, knownExtKeyUsage eku)
    (foundAny : Bool) (ekus : List Int) :
    extKeyUsageLoop foundAny ekus l
      = (foundAny || decide ("any" ∈ l), ekus ++ l.map extKeyUsageValue) := by
  induction l generalizing foundAny ekus with
  | nil => simp [extKeyUsageLoop]
  | cons eku rest ih =>
    have hrest : ∀ k ∈ rest, knownExtKeyUsage k := fun k hk => h k (List.mem_cons_of_mem _ hk)
    rcases h eku (List.mem_cons_self _ _) with he | he | he
    · subst he
      simp [extKeyUsageLoop, ih hrest, extKeyUsageValue]
    · subst he
      simp [extKeyUsageLoop, ih hrest, extKeyUsageValue]
    · subst he
      simp [extKeyUsageLoop, ih hrest, extKeyUsageValue]

/-- The rule the code does enforce: when every entry of both lists is a
recognised name and `any` stands next to another entry, parsing fails. -/
theorem UnmarshalYAML_any_with_known_other (u : KeyUsage) (yku : yamlKeyUsage)
    (hp : yku.Preset = "") (hku : ∀ ku ∈ yku.KeyUsage, knownKeyUsage ku)
    (heku : ∀ eku ∈ yku.ExtKeyUsage, knownExtKeyUsage eku)
    (hany : "any" ∈ yku.ExtKeyUsage) (hother : ∃ eku ∈ yku.ExtKeyUsage, eku ≠ "any") :
    (UnmarshalYAML u (.ok yku)).2 = some .anyAndOthers := by
  have hlen : 1 < yku.ExtKeyUsage.length := by
    obtain ⟨eku, hmem, hne⟩ := hother
    match hl : yku.ExtKeyUsage with
    | [] => rw [hl] at hany; cases hany
    | [a] =>
      rw [hl] at hany hmem
      simp only [List.mem_singleton] at hany hmem
      exact absurd (hmem.trans hany.symm) hne
    | _ :: _ :: _ => simp
  have h1 := keyUsageLoop_known yku.KeyUsage hku 0
  have h2 := extKeyUsageLoop_known yku.ExtKeyUsage heku false []
  unfold UnmarshalYAML
  simp only [hp, ne_eq, not_true_eq_false, if_false]
  rcases hk : keyUsageLoop 0 yku.KeyUsage with ⟨mask, err⟩
  rw [hk] at h1
  simp only at h1
  subst h1
  simp [h2, hany, hlen]

/-! ## Mutual exclusion -/

/-- C4, at the input that breaks it: with an empty preset and no key usages,
the extended usage list `any`, `bogus` holds `any` next to another entry, yet
`UnmarshalYAML` returns no error; the unrecognised entry is skipped and the
receiver ends with the single extended usage `any`. -/
theorem C4_any_with_unrecognised_entry_accepted (u : KeyUsage) :
    UnmarshalYAML u (.ok ⟨[], ["any", "bogus"], ""⟩)
      = (⟨0, [ExtKeyUsageAny]⟩, none) := by
  rfl

/-- C5: a non-empty preset together with a non-empty `keyUsage` or
`extKeyUsage` list is rejected, whatever the names are: the error is the
`keyUsage` one when that list is non-empty and the `extKeyUsage` one
otherwise, and the receiver is left as it was. -/
theorem C5_preset_with_lists_rejected (u : KeyUsage) (yku : yamlKeyUsage)
    (hp : yku.Preset ≠ "") (hl : yku.KeyUsage ≠ [] ∨ yku.ExtKeyUsage ≠ []) :
    (∃ err, (UnmarshalYAML u (.ok yku)).2 = some err) ∧
    UnmarshalYAML u (.ok yku)
      = (u, some (if yku.KeyUsage ≠ [] then .presetAndKeyUsage else .presetAndExtKeyUsage)) := by
  have key : UnmarshalYAML u (.ok yku)
      = (u, some (if yku.KeyUsage ≠ [] then .presetAndKeyUsage else .presetAndExtKeyUsage)) := by
    unfold UnmarshalYAML
    by_cases hk : yku.KeyUsage = []
    · have he : yku.ExtKeyUsage ≠ [] := hl.resolve_left (fun h => h hk)
      simp [hp, hk, he]
    · simp [hp, hk]
  exact ⟨⟨_, by rw [key]⟩, key⟩

theorem C5_preset_with_lists_rejected_witness :
    UnmarshalYAML KeyUsageCA (.ok ⟨[], ["nonsense"], "tlsServer"⟩)
      = (KeyUsageCA, some .presetAndExtKeyUsage) :=
  (C5_preset_with_lists_rejected KeyUsageCA ⟨[], ["nonsense"], "tlsServer"⟩
    (by decide) (Or.inr (by decide))).2

/-! ## Unknown names -/

theorem Quote_data_head (isPrint : Char → Bool) (s : String) :
    ∃ tl, (Quote isPrint s).data = dq :: tl :=
  ⟨_, rfl⟩

/-- C6 as stated fails: the unrecognised preset `bogus` given next to a
`keyUsage` list is rejected with the mutual-exclusion message, which holds no
double quote and so no quoted form of `bogus`, whatever `unicode.IsPrint` is. -/
theorem C6_counterexample :
    "bogus" ≠ "" ∧ (PresetFromString "bogus").2 ≠ none ∧
    (UnmarshalYAML KeyUsage.zero (.ok ⟨["keyEncipherment"], [], "bogus"⟩)).2
      = some .presetAndKeyUsage ∧
    ¬ ∃ isPrint : Char → Bool,
      (Quote isPrint "bogus").data <:+: (Error.presetAndKeyUsage.Error isPrint).data := by
  refine ⟨by decide, by decide, rfl, ?_⟩
  rintro ⟨isPrint, hinf⟩
  obtain ⟨tl, htl⟩ := Quote_data_head isPrint "bogus"
  have hmem : dq ∈ (Error.presetAndKeyUsage.Error isPrint).data := by
    apply hinf.subset
    rw [htl]
    exact List.mem_cons_self _ _
  revert hmem
  simp only [Error.Error]
  decide

/-- C6, amended: an input whose non-empty preset is none of `tlsServer`,
`tlsClient`, `tlsClientServer` and whose two lists are empty, or whose preset is
empty and whose `keyUsage` list has an entry that is neither `keyEncipherment`
nor `digitalSignature`, is rejected, and the message of the error contains the
Go-quoted form of the offending token: the preset, respectively the first
unrecognised entry of the `keyUsage` list. -/
theorem C6_unknown_name_echoed (isPrint : Char → Bool) (u : KeyUsage) (yku : yamlKeyUsage)
    (h : (yku.Preset ≠ "" ∧ yku.KeyUsage = [] ∧ yku.ExtKeyUsage = [] ∧
            yku.Preset ≠ "tlsServer" ∧ yku.Preset ≠ "tlsClient" ∧
            yku.Preset ≠ "tlsClientServer") ∨
         (yku.Preset = "" ∧ ∃ ku ∈ yku.KeyUsage, ¬ knownKeyUsage ku)) :
    ∃ err tok, (UnmarshalYAML u (.ok yku)).2 = some err ∧
      ((yku.Preset ≠ "" ∧ tok = yku.Preset) ∨
        (yku.Preset = "" ∧ ¬ knownKeyUsage tok ∧
          ∃ pre post, yku.KeyUsage = pre ++ tok :: post ∧ ∀ k ∈ pre, knownKeyUsage k)) ∧
      (Quote isPrint tok).data <:+: (err.Error isPrint).data := by
  rcases h with ⟨hp, hk, he, h1, h2, h3⟩ | ⟨hp, hex⟩
  · refine ⟨.unknownPreset yku.Preset, yku.Preset, ?_, Or.inl ⟨hp, rfl⟩, ?_⟩
    · unfold UnmarshalYAML
      simp [hp, hk, he, PresetFromString, h1, h2, h3]
    · exact ⟨"Unknown preset ".data, " specified".data, by simp [Error.Error]⟩
  · obtain ⟨pre, tok, post, hl, hall, htn, hres⟩ := keyUsageLoop_unknown yku.KeyUsage hex 0
    refine ⟨.unknownKeyUsage tok, tok, ?_, Or.inr ⟨hp, htn, pre, post, hl, hall⟩, ?_⟩
    · unfold UnmarshalYAML
      simp only [hp, ne_eq, not_true_eq_false, if_false]
      rcases hk : keyUsageLoop 0 yku.KeyUsage with ⟨mask, err⟩
      rw [hk] at hres
      simp only at hres
      subst hres
      rfl
    · exact ⟨"Unknown keyUsage ".data, [], by simp [Error.Error]⟩

theorem C6_unknown_name_echoed_witness :
    ∃ err tok,
      (UnmarshalYAML KeyUsage.zero
        (.ok ⟨["digitalSignature", "dataEncipherment", "nonRepudiation"], [], ""⟩)).2
        = some err ∧
      ((("" : String) ≠ "" ∧ tok = "") ∨
        (("" : String) = "" ∧ ¬ knownKeyUsage tok ∧
          ∃ pre post, ["digitalSignature", "dataEncipherment", "nonRepudiation"]
              = pre ++ tok :: post ∧ ∀ k ∈ pre, knownKeyUsage k)) ∧
      (Quote (fun _ => true) tok).data <:+: (err.Error (fun _ => true)).data :=
  C6_unknown_name_echoed (fun _ => true) KeyUsage.zero
    ⟨["digitalSignature", "dataEncipherment", "nonRepudiation"], [], ""⟩
    (Or.inr ⟨rfl, "dataEncipherment", by decide, by unfold knownKeyUsage; decide⟩)

/-! ## Presets -/

/-- C7 as stated fails: `PresetFromString` has no branch for `CA`; it returns
the zero value, which is not `KeyUsageCA`, and the unknown-preset error. -/
theorem C7_counterexample :
    PresetFromString "CA" = (KeyUsage.zero, some (.unknownPreset "CA")) ∧
    (PresetFromString "CA").1 ≠ KeyUsageCA := by
  decide

/-- C7, amended: `PresetFromString` succeeds on `tlsServer`, `tlsClient` and
`tlsClientServer`, returning keyEncipherment|digitalSignature with the extended
usages serverAuth, clientAuth, and clientAuth then serverAuth (the values of
`KeyUsageTLSServer`, `KeyUsageTLSClient`, `KeyUsageTLSClientServer`); it fails
with the unknown-preset error and the zero value on every other string; and
`KeyUsageCA` is certSign|crlSign with no extended usage. -/
theorem C7_presets (s : String) :
    PresetFromString "tlsServer" = (KeyUsageTLSServer, none) ∧
    KeyUsageTLSServer
      = ⟨Int.lor KeyUsageKeyEncipherment KeyUsageDigitalSignature, [ExtKeyUsageServerAuth]⟩ ∧
    PresetFromString "tlsClient" = (KeyUsageTLSClient, none) ∧
    KeyUsageTLSClient
      = ⟨Int.lor KeyUsageKeyEncipherment KeyUsageDigitalSignature, [ExtKeyUsageClientAuth]⟩ ∧
    PresetFromString "tlsClientServer" = (KeyUsageTLSClientServer, none) ∧
    KeyUsageTLSClientServer
      = ⟨Int.lor KeyUsageKeyEncipherment KeyUsageDigitalSignature,
          [ExtKeyUsageClientAuth, ExtKeyUsageServerAuth]⟩ ∧
    KeyUsageCA = ⟨Int.lor KeyUsageCertSign KeyUsageCRLSign, []⟩ ∧
    (s ≠ "tlsServer" ∧ s ≠ "tlsClient" ∧ s ≠ "tlsClientServer" →
      PresetFromString s = (KeyUsage.zero, some (.unknownPreset s))) := by
  refine ⟨rfl, rfl, rfl, rfl, rfl, rfl, rfl, ?_⟩
  rintro ⟨h1, h2, h3⟩
  simp [PresetFromString, h1, h2, h3]

theorem C7_presets_witness :
    PresetFromString "tlsclient" = (KeyUsage.zero, some (.unknownPreset "tlsclient")) :=
  (C7_presets "tlsclient").2.2.2.2.2.2.2 (by decide)

/-! ## Protocol-buffer round trip -/

theorem toProtoLoop_eq (l : List Int) (ekuints : List Nat) :
    toProtoLoop ekuints l = ekuints ++ l.map uint32 := by
  induction l generalizing ekuints with
  | nil => simp [toProtoLoop]
  | cons eku rest ih => simp [toProtoLoop, ih]

theorem fromProtoLoop_eq (l : List Nat) (ekus : List Int) :
    fromProtoLoop ekus l = ekus ++ List.map (Nat.cast : Nat → Int) l := by
  induction l generalizing ekus with
  | nil => simp [fromProtoLoop]
  | cons ekuint rest ih => simp [fromProtoLoop, ih]

theorem uint32_cast (x : Int) (h0 : 0 ≤ x) (h1 : x < 4294967296) : ((uint32 x : Nat) : Int) = x := by
  unfold uint32
  rw [Int.emod_eq_of_lt h0 h1]
  exact Int.toNat_of_nonneg h0

/-- C9: a `KeyUsage` whose mask and extended usages all lie in `[0, 2^32)`
comes back unchanged (same mask, same extended usages in the same order) from
`ToProtoStruct` followed by `FromProtoStruct`; and `FromProtoStruct(nil)` is
the zero `KeyUsage`. -/
theorem C9_proto_roundtrip (u : KeyUsage)
    (hk : 0 ≤ u.KeyUsage ∧ u.KeyUsage < 2 ^ 32)
    (he : ∀ eku ∈ u.ExtKeyUsages, 0 ≤ eku ∧ eku < 2 ^ 32) :
    FromProtoStruct u.ToProtoStruct = u ∧
    (FromProtoStruct u.ToProtoStruct).KeyUsage = u.KeyUsage ∧
    (FromProtoStruct u.ToProtoStruct).ExtKeyUsages = u.ExtKeyUsages ∧
    FromProtoStruct none = KeyUsage.zero := by
  have hmap : List.map (Nat.cast : Nat → Int) (List.map uint32 u.ExtKeyUsages)
      = u.ExtKeyUsages := by
    rw [List.map_map]
    conv_rhs => rw [← List.map_id u.ExtKeyUsages]
    apply List.map_congr_left
    intro eku hmem
    have := he eku hmem
    exact uint32_cast eku this.1 (by simpa using this.2)
  have key : FromProtoStruct u.ToProtoStruct = u := by
    obtain ⟨k, es⟩ := u
    simp only [KeyUsage.ToProtoStruct, FromProtoStruct, toProtoLoop_eq, fromProtoLoop_eq,
      List.nil_append]
    simp only at hk hmap
    rw [hmap, uint32_cast k hk.1 (by simpa using hk.2)]
  exact ⟨key, by rw [key], by rw [key], rfl⟩

theorem C9_proto_roundtrip_witness :
    FromProtoStruct KeyUsageTLSClientServer.ToProtoStruct = KeyUsageTLSClientServer ∧
    (FromProtoStruct KeyUsageTLSClientServer.ToProtoStruct).KeyUsage
      = KeyUsageTLSClientServer.KeyUsage ∧
    (FromProtoStruct KeyUsageTLSClientServer.ToProtoStruct).ExtKeyUsages
      = KeyUsageTLSClientServer.ExtKeyUsages ∧
    FromProtoStruct none = KeyUsage.zero :=
  C9_proto_roundtrip KeyUsageTLSClientServer (by decide) (by decide)

/-! ## Agreement of the two input modes -/

/-- C10: for each of `tlsServer`, `tlsClient`, `tlsClientServer`, parsing the
preset alone succeeds and leaves in the receiver the same `KeyUsage` as parsing
an empty preset with the `keyUsage` list keyEncipherment, digitalSignature (in
either order) and the `extKeyUsage` list serverAuth, clientAuth, and
clientAuth then serverAuth respectively; that value is the preset's variable. -/
theorem C10_preset_and_list_modes_agree (u v : KeyUsage) :
    (UnmarshalYAML u (.ok ⟨[], [], "tlsServer"⟩) = (KeyUsageTLSServer, none) ∧
      UnmarshalYAML v (.ok ⟨["keyEncipherment", "digitalSignature"], ["serverAuth"], ""⟩)
        = UnmarshalYAML u (.ok ⟨[], [], "tlsServer"⟩) ∧
      UnmarshalYAML v (.ok ⟨["digitalSignature", "keyEncipherment"], ["serverAuth"], ""⟩)
        = UnmarshalYAML u (.ok ⟨[], [], "tlsServer"⟩)) ∧
    (UnmarshalYAML u (.ok ⟨[], [], "tlsClient"⟩) = (KeyUsageTLSClient, none) ∧
      UnmarshalYAML v (.ok ⟨["keyEncipherment", "digitalSignature"], ["clientAuth"], ""⟩)
        = UnmarshalYAML u (.ok ⟨[], [], "tlsClient"⟩) ∧
      UnmarshalYAML v (.ok ⟨["digitalSignature", "keyEncipherment"], ["clientAuth"], ""⟩)
        = UnmarshalYAML u (.ok ⟨[], [], "tlsClient"⟩)) ∧
    (UnmarshalYAML u (.ok ⟨[], [], "tlsClientServer"⟩) = (KeyUsageTLSClientServer, none) ∧
      UnmarshalYAML v
          (.ok ⟨["keyEncipherment", "digitalSignature"], ["clientAuth", "serverAuth"], ""⟩)
        = UnmarshalYAML u (.ok ⟨[], [], "tlsClientServer"⟩) ∧
      UnmarshalYAML v
          (.ok ⟨["digitalSignature", "keyEncipherment"], ["clientAuth", "serverAuth"], ""⟩)
        = UnmarshalYAML u (.ok ⟨[], [], "tlsClientServer"⟩)) := by
  refine ⟨⟨rfl, rfl, rfl⟩, ⟨rfl, rfl, rfl⟩, ⟨rfl, rfl, rfl⟩⟩

end keyusage

/-! # Properties of the issuance server -/

namespace serve

/-! ## Case folding -/

theorem asciiLower_val (b : Byte) :
    (asciiLower b).val = if 65 ≤ b.val ∧ b.val ≤ 90 then b.val + 32 else b.val := by
  unfold asciiLower
  split_ifs with h
  · show (b.val + 32) % 256 = b.val + 32
    omega
  · rfl

theorem asciiLower_eq_iff (sr tr : Byte) :
    asciiLower sr = asciiLower tr ↔
      (if 65 ≤ sr.val ∧ sr.val ≤ 90 then sr.val + 32 else sr.val)
        = (if 65 ≤ tr.val ∧ tr.val ≤ 90 then tr.val + 32 else tr.val) := by
  rw [Fin.ext_iff, asciiLower_val, asciiLower_val]

/-- On an ASCII second argument, `EqualFold` is equality of lower-case forms. -/
theorem EqualFold_iff (s t : Bytes) (ht : ∀ b ∈ t, b.val < 128) :
    EqualFold s t = true ↔ EqualIgnoringCase s t := by
  induction s generalizing t with
  | nil =>
    cases t with
    | nil => simp [EqualFold, EqualIgnoringCase]
    | cons tr t => simp [EqualFold, EqualIgnoringCase]
  | cons sr s ih =>
    cases t with
    | nil => simp [EqualFold, EqualIgnoringCase]
    | cons tr t =>
      have htr : tr.val < 128 := ht tr (List.mem_cons_self _ _)
      have hrest : ∀ b ∈ t, b.val < 128 := fun b hb => ht b (List.mem_cons_of_mem _ hb)
      have hih := ih t hrest
      have hsr := sr.isLt
      unfold EqualIgnoringCase at hih ⊢
      simp only [List.map_cons, List.cons.injEq, asciiLower_eq_iff]
      unfold EqualFold
      by_cases hhi : sr.val ≥ 128 ∨ tr.val ≥ 128
      · rw [if_pos hhi]
        have h128 : sr.val ≥ 128 := by omega
        constructor
        · intro h; cases h
        · rintro ⟨h, _⟩
          exfalso
          split_ifs at h <;> omega
      · rw [if_neg hhi]
        by_cases heq : tr = sr
        · rw [if_pos heq, hih]
          subst heq
          simp
        · rw [if_neg heq]
          have hne : tr.val ≠ sr.val := fun h => heq (Fin.ext h)
          by_cases hlt : tr.val < sr.val
          · simp only [hlt, if_true]
            by_cases hc : 65 ≤ tr.val ∧ tr.val ≤ 90 ∧ sr.val = tr.val + (97 - 65)
            · rw [if_pos hc, hih]
              have hB : (if 65 ≤ sr.val ∧ sr.val ≤ 90 then sr.val + 32 else sr.val)
                  = (if 65 ≤ tr.val ∧ tr.val ≤ 90 then tr.val + 32 else tr.val) := by
                split_ifs <;> omega
              exact ⟨fun h => ⟨hB, h⟩, fun h => h.2⟩
            · rw [if_neg hc]
              constructor
              · intro h; cases h
              · rintro ⟨hB, _⟩
                exfalso
                split_ifs at hB <;> omega
          · simp only [hlt, if_false]
            by_cases hc : 65 ≤ sr.val ∧ sr.val ≤ 90 ∧ tr.val = sr.val + (97 - 65)
            · rw [if_pos hc, hih]
              have hB : (if 65 ≤ sr.val ∧ sr.val ≤ 90 then sr.val + 32 else sr.val)
                  = (if 65 ≤ tr.val ∧ tr.val ≤ 90 then tr.val + 32 else tr.val) := by
                split_ifs <;> omega
              exact ⟨fun h => ⟨hB, h⟩, fun h => h.2⟩
            · rw [if_neg hc]
              constructor
              · intro h; cases h
              · rintro ⟨hB, _⟩
                exfalso
                split_ifs at hB <;> omega

/-! ## Protocol multiplexer -/

theorem HasPrefix_iff (s pre : Bytes) : HasPrefix s pre = true ↔ pre <+: s := by
  unfold HasPrefix
  rw [List.prefix_iff_eq_take]
  simp only [ge_iff_le, Bool.and_eq_true, decide_eq_true_eq]
  constructor
  · rintro ⟨_, h⟩
    exact h.symm
  · intro h
    refine ⟨?_, h.symm⟩
    have hl := congrArg List.length h
    rw [List.length_take] at hl
    omega

/-- C8: the handler returned by `grpcHttpMux` hands every request to exactly
one of the two targets: to the RPC server if and only if `ProtoMajor` is 2 and
the first `Content-Type` value begins with `application/grpc`, and to the HTTP
handler if and only if that is not so. -/
theorem C8_mux_dispatch (r : Request) :
    (grpcHttpMux r = .grpcServer r ∨ grpcHttpMux r = .httpHandler r) ∧
    (grpcHttpMux r = .grpcServer r ↔
      r.ProtoMajor = 2 ∧ ofASCII "application/grpc" <+: r.HeaderGet "Content-Type") ∧
    (grpcHttpMux r = .httpHandler r ↔
      ¬ (r.ProtoMajor = 2 ∧ ofASCII "application/grpc" <+: r.HeaderGet "Content-Type")) := by
  have hiff : (r.ProtoMajor = 2 ∧
        HasPrefix (r.HeaderGet "Content-Type") (ofASCII "application/grpc") = true) ↔
      (r.ProtoMajor = 2 ∧ ofASCII "application/grpc" <+: r.HeaderGet "Content-Type") := by
    rw [HasPrefix_iff]
  rw [← hiff]
  unfold grpcHttpMux
  by_cases h : r.ProtoMajor = 2 ∧
      HasPrefix (r.HeaderGet "Content-Type") (ofASCII "application/grpc") = true
  · rw [if_pos h]
    exact ⟨Or.inl rfl, ⟨fun _ => h, fun _ => rfl⟩,
      ⟨fun hc => Served.noConfusion hc, fun hn => absurd h hn⟩⟩
  · rw [if_neg h]
    exact ⟨Or.inr rfl, ⟨fun hc => Served.noConfusion hc, fun hc => absurd hc h⟩,
      ⟨fun _ => h, fun _ => rfl⟩⟩

/-! ## Authentication ladder -/

theorem generateAuthFunc_ok (Verify : List Certificate → List Int → Certificate → Option String)
    (cacert : Certificate) (bootstrap : Bytes) (ctx : Context) :
    callAuthFunc Verify (.ok cacert) bootstrap ctx = .ok (authfunc Verify cacert bootstrap ctx) :=
  rfl

theorem BearerPrefix_eq : BearerPrefix = [98, 101, 97, 114, 101, 114, 32] := by
  decide

theorem BearerPrefix_ascii : ∀ b ∈ BearerPrefix, b.val < 128 := by
  intro b hb
  rw [BearerPrefix_eq] at hb
  simp only [List.mem_cons, List.mem_singleton, List.not_mem_nil, or_false] at hb
  rcases hb with rfl | rfl | rfl | rfl | rfl | rfl | rfl <;> decide

/-- Without a peer certificate the outcome is decided by the header alone. -/
theorem authfunc_noPeerCertificate
    (Verify : List Certificate → List Int → Certificate → Option String)
    (cacert : Certificate) (bootstrap : Bytes) (ctx : Context) (hp : ctx.noPeerCertificate) :
    authfunc Verify cacert bootstrap ctx =
      if ctx.authHeader ≠ [] then
        if ctx.authHeader.length < BearerPrefix.length ∨
            EqualFold (ctx.authHeader.take BearerPrefix.length) BearerPrefix = false then
          .error ⟨.Unauthenticated, "Bad scheme"⟩
        else if bootstrap = [] ∨ ctx.authHeader.drop BearerPrefix.length ≠ bootstrap then
          .error ⟨.Unauthenticated, "Bad token"⟩
        else .ok .BootstrapToken
      else .ok .Anonymous := by
  rcases hp with h | h | h <;> simp only [authfunc, h, User.isAnonymous, if_true]

/-- C1: in the auth function built by `generateAuthFunc`, a request whose first
peer certificate verifies against the CA of the auth profile for clientAuth
succeeds as `ClientCert` of that certificate's common name, whatever the
authorization values are; and a request with no peer certificate and an empty
or absent authorization header succeeds as `Anonymous`. -/
theorem C1_client_cert_or_anonymous
    (Verify : List Certificate → List Int → Certificate → Option String)
    (cacert : Certificate) (bootstrap : Bytes) (ctx : Context) :
    (∀ pc rest, ctx.peer = some (.TLSInfo (pc :: rest)) →
        Verify [cacert] [keyusage.ExtKeyUsageClientAuth] pc = none →
        callAuthFunc Verify (.ok cacert) bootstrap ctx
          = .ok (.ok (.ClientCert pc.SubjectCommonName))) ∧
    (ctx.noPeerCertificate → ctx.authHeader = [] →
        callAuthFunc Verify (.ok cacert) bootstrap ctx = .ok (.ok .Anonymous)) := by
  constructor
  · intro pc rest hpeer hv
    rw [generateAuthFunc_ok]
    simp only [authfunc, hpeer, hv, User.isAnonymous]
    rfl
  · intro hp hh
    rw [generateAuthFunc_ok, authfunc_noPeerCertificate Verify cacert bootstrap ctx hp]
    simp [hh]

theorem C1_client_cert_or_anonymous_witness :
    callAuthFunc sampleVerify (.ok sampleCA) (ofASCII "s3cret")
        ⟨some (.TLSInfo [sampleGoodCert, sampleBadCert]), [ofASCII "bearer wrong"]⟩
      = .ok (.ok (.ClientCert "alice")) ∧
    callAuthFunc sampleVerify (.ok sampleCA) (ofASCII "s3cret") ⟨some (.TLSInfo []), []⟩
      = .ok (.ok .Anonymous) :=
  ⟨(C1_client_cert_or_anonymous sampleVerify sampleCA (ofASCII "s3cret")
      ⟨some (.TLSInfo [sampleGoodCert, sampleBadCert]), [ofASCII "bearer wrong"]⟩).1
      sampleGoodCert [sampleBadCert] rfl (by decide),
   (C1_client_cert_or_anonymous sampleVerify sampleCA (ofASCII "s3cret")
      ⟨some (.TLSInfo []), []⟩).2 (Or.inr (Or.inr rfl)) rfl⟩

/-- C2: in the auth function built by `generateAuthFunc`, a request whose first
peer certificate fails verification is rejected with an Unauthenticated error
carrying the verification error, whatever the authorization values are, the
correct bootstrap token included; no identity is produced. -/
theorem C2_bad_client_cert_rejected
    (Verify : List Certificate → List Int → Certificate → Option String)
    (cacert : Certificate) (bootstrap : Bytes) (ctx : Context)
    (pc : Certificate) (rest : List Certificate) (err : String)
    (hpeer : ctx.peer = some (.TLSInfo (pc :: rest)))
    (hv : Verify [cacert] [keyusage.ExtKeyUsageClientAuth] pc = some err) :
    callAuthFunc Verify (.ok cacert) bootstrap ctx
        = .ok (.error ⟨.Unauthenticated, "Failed to verify client cert: " ++ err⟩) ∧
    ∀ u, callAuthFunc Verify (.ok cacert) bootstrap ctx ≠ .ok (.ok u) := by
  have key : callAuthFunc Verify (.ok cacert) bootstrap ctx
      = .ok (.error ⟨.Unauthenticated, "Failed to verify client cert: " ++ err⟩) := by
    rw [generateAuthFunc_ok]
    simp only [authfunc, hpeer, hv]
  refine ⟨key, fun u hu => ?_⟩
  rw [key] at hu
  cases hu

theorem C2_bad_client_cert_rejected_witness :
    callAuthFunc sampleVerify (.ok sampleCA) (ofASCII "s3cret")
        ⟨some (.TLSInfo [sampleBadCert]), [ofASCII "bearer s3cret"]⟩
      = .ok (.error ⟨.Unauthenticated,
          "Failed to verify client cert: " ++ "x509: certificate signed by unknown authority"⟩) ∧
    ∀ u, callAuthFunc sampleVerify (.ok sampleCA) (ofASCII "s3cret")
        ⟨some (.TLSInfo [sampleBadCert]), [ofASCII "bearer s3cret"]⟩ ≠ .ok (.ok u) :=
  C2_bad_client_cert_rejected sampleVerify sampleCA (ofASCII "s3cret")
    ⟨some (.TLSInfo [sampleBadCert]), [ofASCII "bearer s3cret"]⟩
    sampleBadCert [] "x509: certificate signed by unknown authority" rfl (by decide)

/-- C3: in the auth function built by `generateAuthFunc`, for a request with
no peer certificate and a non-empty authorization header `h`: the identity is
`BootstrapToken` if and only if `h` has at least 7 bytes, its first 7 bytes
equal `bearer ` ignoring letter case, the rest of `h` equals the bootstrap
secret and the secret is non-empty; the call is rejected with `Bad scheme`
exactly when `h` is shorter than 7 bytes or its first 7 bytes do not equal
`bearer ` ignoring case; and it is rejected with `Bad token` exactly in the
remaining cases. -/
theorem C3_bearer_token
    (Verify : List Certificate → List Int → Certificate → Option String)
    (cacert : Certificate) (bootstrap : Bytes) (ctx : Context)
    (hp : ctx.noPeerCertificate) (hh : ctx.authHeader ≠ []) :
    (callAuthFunc Verify (.ok cacert) bootstrap ctx = .ok (.ok .BootstrapToken) ↔
      7 ≤ ctx.authHeader.length ∧
      EqualIgnoringCase (ctx.authHeader.take 7) (ofASCII "bearer ") ∧
      ctx.authHeader.drop 7 = bootstrap ∧ bootstrap ≠ []) ∧
    (callAuthFunc Verify (.ok cacert) bootstrap ctx
        = .ok (.error ⟨.Unauthenticated, "Bad scheme"⟩) ↔
      ctx.authHeader.length < 7 ∨
      ¬ EqualIgnoringCase (ctx.authHeader.take 7) (ofASCII "bearer ")) ∧
    (callAuthFunc Verify (.ok cacert) bootstrap ctx
        = .ok (.error ⟨.Unauthenticated, "Bad token"⟩) ↔
      ¬ (7 ≤ ctx.authHeader.length ∧
          EqualIgnoringCase (ctx.authHeader.take 7) (ofASCII "bearer ") ∧
          ctx.authHeader.drop 7 = bootstrap ∧ bootstrap ≠ []) ∧
      ¬ (ctx.authHeader.length < 7 ∨
          ¬ EqualIgnoringCase (ctx.authHeader.take 7) (ofASCII "bearer "))) := by
  have hlen : BearerPrefix.length = 7 := by rw [BearerPrefix_eq]; rfl
  have hfold : EqualFold (ctx.authHeader.take 7) BearerPrefix = false ↔
      ¬ EqualIgnoringCase (ctx.authHeader.take 7) (ofASCII "bearer ") := by
    show _ ↔ ¬ EqualIgnoringCase (ctx.authHeader.take 7) BearerPrefix
    rw [← EqualFold_iff _ _ BearerPrefix_ascii]
    simp
  rw [generateAuthFunc_ok, authfunc_noPeerCertificate Verify cacert bootstrap ctx hp,
    if_pos hh, hlen]
  by_cases h1 : ctx.authHeader.length < 7
  · have hc : ctx.authHeader.length < 7 ∨
        EqualFold (ctx.authHeader.take 7) BearerPrefix = false := Or.inl h1
    rw [if_pos hc]
    refine ⟨⟨fun h => ?_, fun h => ?_⟩, ⟨fun _ => Or.inl h1, fun _ => rfl⟩,
      ⟨fun h => ?_, fun h => ?_⟩⟩
    · simp at h
    · omega
    · simp at h
    · exact absurd (Or.inl h1) h.2
  · by_cases h2 : EqualIgnoringCase (ctx.authHeader.take 7) (ofASCII "bearer ")
    · have hc : ¬ (ctx.authHeader.length < 7 ∨
          EqualFold (ctx.authHeader.take 7) BearerPrefix = false) := by
        rw [hfold]
        exact fun h => h.elim h1 (fun h => h h2)
      rw [if_neg hc]
      by_cases h3 : bootstrap = [] ∨ ctx.authHeader.drop 7 ≠ bootstrap
      · rw [if_pos h3]
        refine ⟨⟨fun h => ?_, fun h => ?_⟩, ⟨fun h => ?_, fun h => ?_⟩,
          ⟨fun _ => ⟨?_, ?_⟩, fun _ => rfl⟩⟩
        · simp at h
        · exact absurd h.2.2.1 (h3.elim (fun hb => absurd hb h.2.2.2) id)
        · simp at h
        · exact absurd h2 (h.elim (fun h => absurd h h1) id)
        · exact fun h => h3.elim (fun hb => h.2.2.2 hb) (fun hd => hd h.2.2.1)
        · exact fun h => h.elim h1 (fun h => h h2)
      · rw [if_neg h3]
        have hb : bootstrap ≠ [] := fun hb => h3 (Or.inl hb)
        have hd : ctx.authHeader.drop 7 = bootstrap := by
          by_contra hd
          exact h3 (Or.inr hd)
        refine ⟨⟨fun _ => ⟨by omega, h2, hd, hb⟩, fun _ => rfl⟩, ⟨fun h => ?_, fun h => ?_⟩,
          ⟨fun h => ?_, fun h => ?_⟩⟩
        · simp at h
        · exact absurd h2 (h.elim (fun h => absurd h h1) id)
        · simp at h
        · exact absurd ⟨by omega, h2, hd, hb⟩ h.1
    · have hc : ctx.authHeader.length < 7 ∨
          EqualFold (ctx.authHeader.take 7) BearerPrefix = false := Or.inr (hfold.mpr h2)
      rw [if_pos hc]
      refine ⟨⟨fun h => ?_, fun h => ?_⟩, ⟨fun _ => Or.inr h2, fun _ => rfl⟩,
        ⟨fun h => ?_, fun h => ?_⟩⟩
      · simp at h
      · exact absurd h.2.1 h2
      · simp at h
      · exact absurd (Or.inr h2) h.2

theorem C3_bearer_token_witness :
    (callAuthFunc sampleVerify (.ok sampleCA) (ofASCII "s3cret")
        ⟨none, [ofASCII "BEARER s3cret"]⟩ = .ok (.ok .BootstrapToken) ↔
      7 ≤ (ofASCII "BEARER s3cret").length ∧
      EqualIgnoringCase ((ofASCII "BEARER s3cret").take 7) (ofASCII "bearer ") ∧
      (ofASCII "BEARER s3cret").drop 7 = ofASCII "s3cret" ∧ ofASCII "s3cret" ≠ []) ∧
    callAuthFunc sampleVerify (.ok sampleCA) (ofASCII "s3cret")
        ⟨none, [ofASCII "BEARER s3cret"]⟩ = .ok (.ok .BootstrapToken) :=
  ⟨(C3_bearer_token sampleVerify sampleCA (ofASCII "s3cret")
      ⟨none, [ofASCII "BEARER s3cret"]⟩ (Or.inl rfl) (by decide)).1, rfl⟩

end serve
